import Mathlib

/-!
Verification of the nova-sdk repository: a NEAR smart contract
(`src/contract/src/lib.rs`) implementing a membership ledger with
per-group keys and an append-only transaction log, and a Rust SDK
(`src/nova-sdk-rs/src/lib.rs`) implementing AES-256-CBC encryption,
IPFS storage with retry/fallback, and composite upload/retrieve
workflows.

The contract state and every contract method are embedded as pure Lean
functions.  NEAR panics (`assert!`, `expect`, `env::panic_str`) are
modelled as `Except.error` carrying the exact panic message; because a
NEAR panic reverts the whole call, a failing mutating method returns
the caller-visible state unchanged.  Host-supplied values
(`env::random_seed`, `env::block_timestamp`) become explicit
parameters.  Machine integers are `Nat` with explicit `% 2 ^ 32`
where 32-bit overflow matters (SHA-256).
-/

/-! ## Association lists

`near_sdk::store::LookupMap` / `IterableMap` keep one value per key;
`IterableMap` iterates values in key-insertion order (new keys are
appended, existing keys keep their slot).  We model both as
association lists with an order-preserving insert. -/

def alGet {β : Type} (l : List (String × β)) (k : String) : Option β :=
  match l with
  | [] => none
  | (k', v) :: t => if k' = k then some v else alGet t k

def insertAL {β : Type} (l : List (String × β)) (k : String) (v : β) : List (String × β) :=
  match l with
  | [] => [(k, v)]
  | (k', v') :: t => if k' = k then (k, v) :: t else (k', v') :: insertAL t k v

/-! ## Hex encoding

Models `hex::encode` and the SDK helper `hex_encode`
(`format!("{:02x}", b)` per byte, lowercase, two digits per byte). -/

def hexDigit (n : Nat) : Char :=
  ("0123456789abcdef").toList.getD n '0'

def hexByte (b : Nat) : List Char :=
  [hexDigit (b / 16), hexDigit (b % 16)]

def hexEncode (bs : List Nat) : String :=
  String.mk (bs.flatMap hexByte)

/-! ## UTF-8 bytes of a string

Models Rust `str::as_bytes` (strings are UTF-8). -/

def utf8EncodeChar (c : Char) : List Nat :=
  let n := c.toNat
  if n < 128 then [n]
  else if n < 2048 then [192 + n / 64, 128 + n % 64]
  else if n < 65536 then [224 + n / 4096, 128 + n / 64 % 64, 128 + n % 64]
  else [240 + n / 262144, 128 + n / 4096 % 64, 128 + n / 64 % 64, 128 + n % 64]

def utf8Bytes (s : String) : List Nat :=
  s.data.flatMap utf8EncodeChar

/-! ## Base64 (standard alphabet, `=` padding)

Models the `base64` crate's `general_purpose::STANDARD` engine used by
both the contract (`BASE64_STANDARD`) and the SDK: canonical encoding
with padding; decoding rejects characters outside the alphabet,
lengths that are not a multiple of four, padding anywhere but the end,
and non-zero trailing bits. -/

def b64Alphabet : List Char :=
  ("ABCDEFGHIJKLMNOPQRSTUVWXYZabcdefghijklmnopqrstuvwxyz0123456789+/").toList

def b64Char (v : Nat) : Char :=
  b64Alphabet.getD v 'A'

def b64Val (c : Char) : Option Nat :=
  b64Alphabet.findIdx? (fun x => x = c)

def b64EncodeChunks : List Nat → List Char
  | a :: b :: c :: rest =>
    b64Char (a / 4) :: b64Char (a % 4 * 16 + b / 16) ::
      b64Char (b % 16 * 4 + c / 64) :: b64Char (c % 64) :: b64EncodeChunks rest
  | [a, b] => [b64Char (a / 4), b64Char (a % 4 * 16 + b / 16), b64Char (b % 16 * 4), '=']
  | [a] => [b64Char (a / 4), b64Char (a % 4 * 16), '=', '=']
  | [] => []

def base64Encode (bs : List Nat) : String :=
  String.mk (b64EncodeChunks bs)

def b64DecodeChunks : List Char → Option (List Nat)
  | [] => some []
  | c1 :: c2 :: c3 :: c4 :: rest =>
    (b64Val c1).bind (fun v1 =>
      (b64Val c2).bind (fun v2 =>
        if c3 = '=' then
          if c4 = '=' ∧ rest = [] ∧ v2 % 16 = 0 then some [v1 * 4 + v2 / 16] else none
        else
          (b64Val c3).bind (fun v3 =>
            if c4 = '=' then
              if rest = [] ∧ v3 % 4 = 0 then
                some [v1 * 4 + v2 / 16, v2 % 16 * 16 + v3 / 4]
              else none
            else
              (b64Val c4).bind (fun v4 =>
                (b64DecodeChunks rest).map
                  (fun t => (v1 * 4 + v2 / 16) :: (v2 % 16 * 16 + v3 / 4) :: ((v3 % 4 * 64 + v4) :: t))))))
  | _ => none

def base64Decode (s : String) : Option (List Nat) :=
  b64DecodeChunks s.data

/-! ## SHA-256

Models the `sha2` crate's `Sha256` (used by the SDK's `sha256_hash`)
and NEAR's `env::sha256` (used by the contract's `record_transaction`):
the standard FIPS 180-4 algorithm over byte lists, with 32-bit words
as `Nat` reduced by `% 2 ^ 32`. -/

def w32 (n : Nat) : Nat := n % 4294967296

def rotr32 (x k : Nat) : Nat := w32 ((x >>> k) ||| (x <<< (32 - k)))

def shaCh (x y z : Nat) : Nat := (x &&& y) ^^^ ((x ^^^ 4294967295) &&& z)

def shaMaj (x y z : Nat) : Nat := (x &&& y) ^^^ (x &&& z) ^^^ (y &&& z)

def bigSigma0 (x : Nat) : Nat := rotr32 x 2 ^^^ rotr32 x 13 ^^^ rotr32 x 22

def bigSigma1 (x : Nat) : Nat := rotr32 x 6 ^^^ rotr32 x 11 ^^^ rotr32 x 25

def smallSigma0 (x : Nat) : Nat := rotr32 x 7 ^^^ rotr32 x 18 ^^^ (x >>> 3)

def smallSigma1 (x : Nat) : Nat := rotr32 x 17 ^^^ rotr32 x 19 ^^^ (x >>> 10)

def sha256K : List Nat := [
  1116352408, 1899447441, 3049323471, 3921009573, 961987163, 1508970993,
  2453635748, 2870763221, 3624381080, 310598401, 607225278, 1426881987,
  1925078388, 2162078206, 2614888103, 3248222580, 3835390401, 4022224774,
  264347078, 604807628, 770255983, 1249150122, 1555081692, 1996064986,
  2554220882, 2821834349, 2952996808, 3210313671, 3336571891, 3584528711,
  113926993, 338241895, 666307205, 773529912, 1294757372, 1396182291,
  1695183700, 1986661051, 2177026350, 2456956037, 2730485921, 2820302411,
  3259730800, 3345764771, 3516065817, 3600352804, 4094571909, 275423344,
  430227734, 506948616, 659060556, 883997877, 958139571, 1322822218,
  1537002063, 1747873779, 1955562222, 2024104815, 2227730452, 2361852424,
  2428436474, 2756734187, 3204031479, 3329325298]

structure Sha256State where
  a : Nat
  b : Nat
  c : Nat
  d : Nat
  e : Nat
  f : Nat
  g : Nat
  hh : Nat

def sha256InitState : Sha256State :=
  ⟨1779033703, 3144134277, 1013904242, 2773480762, 1359893119, 2600822924, 528734635, 1541459225⟩

def bytesToWords : List Nat → List Nat
  | b0 :: b1 :: b2 :: b3 :: rest =>
    (b0 * 16777216 + b1 * 65536 + b2 * 256 + b3) :: bytesToWords rest
  | _ => []

def extendWords (ws : List Nat) : List Nat :=
  (List.range 48).foldl
    (fun acc _ =>
      acc ++ [w32 (smallSigma1 (acc.getD (acc.length - 2) 0) + acc.getD (acc.length - 7) 0 +
        smallSigma0 (acc.getD (acc.length - 15) 0) + acc.getD (acc.length - 16) 0)])
    ws

def shaRound (s : Sha256State) (kw : Nat × Nat) : Sha256State :=
  let t1 := w32 (s.hh + bigSigma1 s.e + shaCh s.e s.f s.g + kw.1 + kw.2)
  let t2 := w32 (bigSigma0 s.a + shaMaj s.a s.b s.c)
  ⟨w32 (t1 + t2), s.a, s.b, s.c, w32 (s.d + t1), s.e, s.f, s.g⟩

def compressBlock (hs : Sha256State) (block : List Nat) : Sha256State :=
  let ws := extendWords (bytesToWords block)
  let s := (sha256K.zip ws).foldl shaRound hs
  ⟨w32 (hs.a + s.a), w32 (hs.b + s.b), w32 (hs.c + s.c), w32 (hs.d + s.d),
    w32 (hs.e + s.e), w32 (hs.f + s.f), w32 (hs.g + s.g), w32 (hs.hh + s.hh)⟩

def sha256Pad (msg : List Nat) : List Nat :=
  let L := msg.length
  let z := (64 + 56 - (L + 1) % 64) % 64
  let bl := 8 * L
  msg ++ [128] ++ List.replicate z 0 ++
    [bl / 72057594037927936 % 256, bl / 281474976710656 % 256, bl / 1099511627776 % 256,
     bl / 4294967296 % 256, bl / 16777216 % 256, bl / 65536 % 256, bl / 256 % 256, bl % 256]

def chunks64Go : Nat → List Nat → List (List Nat)
  | 0, _ => []
  | _, [] => []
  | fuel + 1, l => l.take 64 :: chunks64Go fuel (l.drop 64)

def wordBytes (w : Nat) : List Nat :=
  [w / 16777216 % 256, w / 65536 % 256, w / 256 % 256, w % 256]

def sha256 (msg : List Nat) : List Nat :=
  let padded := sha256Pad msg
  let fin := (chunks64Go padded.length padded).foldl compressBlock sha256InitState
  wordBytes fin.a ++ wordBytes fin.b ++ wordBytes fin.c ++ wordBytes fin.d ++
    wordBytes fin.e ++ wordBytes fin.f ++ wordBytes fin.g ++ wordBytes fin.hh

/-! ## The NOVA contract (`src/contract/src/lib.rs`)

State and methods translated line-by-line.  `env::predecessor_account_id`
becomes the explicit `caller` parameter; `env::random_seed` becomes
`seed`; `env::block_timestamp` becomes `ts`.  A mutating method returns
`Except String α × ContractState`: `Except.error msg` carries the Rust
panic message, and since a NEAR panic reverts the whole call the paired
state is the unchanged input state. -/

structure NovaGroup where
  owner : String
  group_key : Option String
  deriving DecidableEq

structure Txn where
  group_id : String
  user_id : String
  file_hash : String
  ipfs_hash : String
  deriving DecidableEq

structure ContractState where
  owner : String
  groups : List (String × NovaGroup)
  groupMembers : List (String × List String)
  transactions : List (String × Txn)
  deriving DecidableEq

def newContract (owner : String) : ContractState :=
  ⟨owner, [], [], []⟩

def registerGroup (st : ContractState) (caller gid : String) :
    Except String Unit × ContractState :=
  if (alGet st.groups gid).isSome then (.error ("Group exists"), st)
  else if caller ≠ st.owner then (.error ("Only owner can register"), st)
  else (.ok (),
    { st with
      groups := insertAL st.groups gid ⟨caller, none⟩
      groupMembers := insertAL st.groupMembers gid [] })

def addGroupMember (st : ContractState) (caller gid uid : String) :
    Except String Unit × ContractState :=
  match alGet st.groups gid with
  | none => (.error ("Group not found"), st)
  | some grp =>
    if caller ≠ grp.owner then (.error ("Only group owner can add"), st)
    else
      match alGet st.groupMembers gid with
      | none => (.error ("Group not found"), st)
      | some ms =>
        if uid ∈ ms then (.error ("User already a member"), st)
        else (.ok (), { st with groupMembers := insertAL st.groupMembers gid (ms ++ [uid]) })

/-- Model of `near_sdk::store::Vector::swap_remove`: replace the element at `i`
with the last element and pop the last slot. -/
def swapRemove (l : List String) (i : Nat) : List String :=
  (l.set i (l.getLastD "")).dropLast

def revokeGroupMember (st : ContractState) (caller gid uid : String) (seed : List Nat) :
    Except String Unit × ContractState :=
  match alGet st.groups gid with
  | none => (.error ("Group not found"), st)
  | some grp =>
    if caller ≠ grp.owner then (.error ("Only group owner can revoke"), st)
    else
      match alGet st.groupMembers gid with
      | none => (.error ("Group not found"), st)
      | some ms =>
        match ms.findIdx? (fun x => x = uid) with
        | some pos =>
          let newKey := base64Encode (seed.take 32)
          (.ok (),
            { st with
              groupMembers := insertAL st.groupMembers gid (swapRemove ms pos)
              groups := insertAL st.groups gid { grp with group_key := some newKey } })
        | none => (.error ("User not a member"), st)

def isAuthorizedFn (st : ContractState) (gid uid : String) : Except String Bool :=
  match alGet st.groupMembers gid with
  | none => .error ("Group not found")
  | some ms => .ok (decide (uid ∈ ms))

def storeGroupKey (st : ContractState) (caller gid key : String) :
    Except String Unit × ContractState :=
  match alGet st.groups gid with
  | none => (.error ("Group not found"), st)
  | some grp =>
    if caller ≠ grp.owner then (.error ("Only group owner can store key"), st)
    else
      match base64Decode key with
      | none => (.error ("Invalid base64 key"), st)
      | some kb =>
        if kb.length ≠ 32 then (.error ("Key must be 32 bytes"), st)
        else (.ok (), { st with groups := insertAL st.groups gid { grp with group_key := some key } })

def getGroupKey (st : ContractState) (caller gid : String) : Except String String :=
  match isAuthorizedFn st gid caller with
  | .error e => .error e
  | .ok auth =>
    if auth = false then .error ("Unauthorized")
    else
      match alGet st.groups gid with
      | none => .error ("Group not found")
      | some grp =>
        match grp.group_key with
        | none => .error ("No key set")
        | some k => .ok k

def recordTransaction (st : ContractState) (caller gid uid fh ih : String) (ts : Nat) :
    Except String String × ContractState :=
  if (alGet st.groups gid).isSome = false then (.error ("Group not found"), st)
  else
    match isAuthorizedFn st gid uid with
    | .error e => (.error e, st)
    | .ok auth =>
      if auth = false then (.error ("User not authorized"), st)
      else if caller ≠ st.owner then (.error ("Only owner can record"), st)
      else
        let transId := hexEncode (sha256 (utf8Bytes (gid ++ uid ++ fh ++ ih ++ toString ts)))
        (.ok transId,
          { st with transactions := insertAL st.transactions transId ⟨gid, uid, fh, ih⟩ })

def getTransactionsForGroup (st : ContractState) (gid uid : String) :
    Except String (List Txn) :=
  if (alGet st.groups gid).isSome = false then .error ("Group not found")
  else
    match isAuthorizedFn st gid uid with
    | .error e => .error e
    | .ok auth =>
      if auth = true ∨ uid = st.owner then
        .ok ((st.transactions.map Prod.snd).filter (fun tx => tx.group_id = gid))
      else .error ("Unauthorized")

/-! Reachable contract states: the initial state produced by `new`, and
closure under the post-state of every (possibly failing) method call.
A failing call pairs its error with the unchanged input state, so the
closure is sound to take unconditionally. -/

inductive Reachable : ContractState → Prop where
  | init (owner : String) : Reachable (newContract owner)
  | register (st : ContractState) (caller gid : String) :
      Reachable st → Reachable (registerGroup st caller gid).2
  | addMember (st : ContractState) (caller gid uid : String) :
      Reachable st → Reachable (addGroupMember st caller gid uid).2
  | revoke (st : ContractState) (caller gid uid : String) (seed : List Nat) :
      Reachable st → Reachable (revokeGroupMember st caller gid uid seed).2
  | storeKey (st : ContractState) (caller gid key : String) :
      Reachable st → Reachable (storeGroupKey st caller gid key).2
  | record (st : ContractState) (caller gid uid fh ih : String) (ts : Nat) :
      Reachable st → Reachable (recordTransaction st caller gid uid fh ih ts).2

/-! ### Helper lemmas: `findIdx?`, `swapRemove`, invariants -/

def groupKeyOf (st : ContractState) (gid : String) : Option String :=
  match alGet st.groups gid with
  | none => none
  | some grp => grp.group_key

def isMemberB (st : ContractState) (gid uid : String) : Bool :=
  match alGet st.groupMembers gid with
  | none => false
  | some ms => decide (uid ∈ ms)

deriving instance DecidableEq for Except

/-- Authorization condition that the C4 spec sentence states for
`list_transactions`, written from the spec's words (`user` is a member,
or the caller is the registrar/owner) for comparison with the code's
actual check. -/
def specListTxnAllowed (st : ContractState) (caller uid gid : String) : Bool :=
  (match alGet st.groupMembers gid with
   | some ms => decide (uid ∈ ms)
   | none => false) || decide (caller = st.owner)

/-! ## The Rust SDK (`src/nova-sdk-rs/src/lib.rs`)

`NovaError` and its `thiserror` display strings; the AES-256-CBC/PKCS7
codec `encrypt_data` / `decrypt_data`; and the IPFS retrieval retry
loop `ipfs_retrieve`.  The AES-256 block transform itself lives in the
external `aes` crate, outside this repository; it is abstracted as a
`BlockCipher` pair of per-key block maps, and every theorem that needs
it carries the crate's contract (a length-preserving, byte-valued
inverse pair on 16-byte blocks) as an explicit hypothesis.  The random
IV (`rand::thread_rng`) is an explicit parameter. -/

inductive NovaError where
  | near (msg : String)
  | invalidKey
  | parseAccount
  | signing (msg : String)
  deriving DecidableEq

def novaErrorMessage : NovaError → String
  | .near m => "Near RPC error: " ++ m
  | .invalidKey => "Invalid key length or format"
  | .parseAccount => "Account ID parse failed"
  | .signing m => "Signing error: " ++ m

structure BlockCipher where
  enc : List Nat → List Nat → List Nat
  dec : List Nat → List Nat → List Nat

def xorBytes (a b : List Nat) : List Nat :=
  List.zipWith (fun x y => x ^^^ y) a b

/-- PKCS7 padding for block size 16, as `encrypt_padded_mut::<Pkcs7>`
applies it: append `16 - len % 16` copies of that same value (always
1..16). -/
def pkcs7pad (bs : List Nat) : List Nat :=
  bs ++ List.replicate (16 - bs.length % 16) (16 - bs.length % 16)

/-- PKCS7 unpadding as `decrypt_padded_mut::<Pkcs7>` checks it: the
last byte `p` must satisfy `1 ≤ p ≤ 16`, be available, and the last
`p` bytes must all equal `p`; otherwise unpadding fails.  In
particular an empty input fails. -/
def pkcs7unpad (bs : List Nat) : Option (List Nat) :=
  bs.getLast?.bind (fun p =>
    if p = 0 ∨ 16 < p ∨ bs.length < p then none
    else if bs.drop (bs.length - p) = List.replicate p p then some (bs.take (bs.length - p))
    else none)

def cbcEncryptGo (E : List Nat → List Nat) : Nat → List Nat → List Nat → List Nat
  | 0, _, _ => []
  | _, _, [] => []
  | fuel + 1, prev, bs =>
    let cblk := E (xorBytes (bs.take 16) prev)
    cblk ++ cbcEncryptGo E fuel cblk (bs.drop 16)

def cbcEncrypt (E : List Nat → List Nat) (iv bs : List Nat) : List Nat :=
  cbcEncryptGo E bs.length iv bs

def cbcDecryptGo (D : List Nat → List Nat) : Nat → List Nat → List Nat → List Nat
  | 0, _, _ => []
  | _, _, [] => []
  | fuel + 1, prev, cs =>
    let cblk := cs.take 16
    xorBytes (D cblk) prev ++ cbcDecryptGo D fuel cblk (cs.drop 16)

def cbcDecrypt (D : List Nat → List Nat) (iv cs : List Nat) : List Nat :=
  cbcDecryptGo D cs.length iv cs

/-- Model of `NovaSdk::encrypt_data`: decode the base64 key (32 bytes or
`InvalidKey`), PKCS7-pad the plaintext, CBC-encrypt under the fresh
16-byte IV, prepend the IV, base64-encode. -/
def encryptData (C : BlockCipher) (data : List Nat) (keyB64 : String) (iv : List Nat) :
    Except NovaError String :=
  match base64Decode keyB64 with
  | none => .error .invalidKey
  | some kb =>
    if kb.length ≠ 32 then .error .invalidKey
    else
      let ciphertext := cbcEncrypt (C.enc kb) iv (pkcs7pad data)
      .ok (base64Encode (iv ++ ciphertext))

/-- Model of `NovaSdk::decrypt_data`: decode the base64 key (32 bytes or
`InvalidKey`), decode the payload (`InvalidKey` on decode failure or
fewer than 16 bytes), split off the 16-byte IV, CBC-decrypt, PKCS7
unpad (`Decryption failed` on any padding error, including a
ciphertext that is not a multiple of the block size), base64-encode
the plaintext. -/
def decryptData (C : BlockCipher) (encryptedB64 keyB64 : String) : Except NovaError String :=
  match base64Decode keyB64 with
  | none => .error .invalidKey
  | some kb =>
    if kb.length ≠ 32 then .error .invalidKey
    else
      match base64Decode encryptedB64 with
      | none => .error .invalidKey
      | some eb =>
        if eb.length < 16 then .error .invalidKey
        else
          let iv := eb.take 16
          let ct := eb.drop 16
          if ct.length % 16 ≠ 0 then .error (.near ("Decryption failed"))
          else
            match pkcs7unpad (cbcDecrypt (C.dec kb) iv ct) with
            | none => .error (.near ("Decryption failed"))
            | some pt => .ok (base64Encode pt)

/-- Substring test on character lists, modelling Rust
`str::contains` as used in `ipfs_retrieve`'s
`e.to_string().contains("timeout")`. -/
def containsSeq (needle : List Char) : List Char → Bool
  | [] => needle.isEmpty
  | c :: t => needle.isPrefixOf (c :: t) || containsSeq needle t

def isTimeoutErr (e : NovaError) : Bool :=
  containsSeq (("timeout").toList) ((novaErrorMessage e).toList)

/-- Model of `NovaSdk::ipfs_retrieve`'s `while retries < 3` loop.  `retries` is
the Rust counter (starting at 0); `remaining` is the structural fuel
`3 - retries`.  Each iteration calls the primary gateway
(`_inner_retrieve`, modelled by `primary` applied to the attempt
index): success returns immediately; an error whose display string
contains `timeout` increments `retries` and sleeps `2 ^ retries`
seconds (recorded in the returned list); any other error returns
immediately.  When the loop exhausts, the public-gateway fallback
block runs once and its (already wrapped) result is returned. -/
def retrieveGo (primary : Nat → Except NovaError String) (fallback : Except NovaError String) :
    Nat → Nat → Except NovaError String × List Nat
  | _, 0 => (fallback, [])
  | retries, remaining + 1 =>
    match primary retries with
    | .ok r => (.ok r, [])
    | .error e =>
      if isTimeoutErr e then
        ((retrieveGo primary fallback (retries + 1) remaining).1,
          2 ^ (retries + 1) :: (retrieveGo primary fallback (retries + 1) remaining).2)
      else (.error e, [])

def ipfsRetrieve (primary : Nat → Except NovaError String) (fallback : Except NovaError String) :
    Except NovaError String × List Nat :=
  retrieveGo primary fallback 0 3

/-! ## Concrete states and instances used by the witnesses -/

def stReg : ContractState :=
  (registerGroup (newContract ("o.testnet")) ("o.testnet") ("g")).2

def stRegMem : ContractState :=
  (addGroupMember stReg ("o.testnet") ("g") ("u.testnet")).2

def zeroKeyB64 : String := base64Encode (List.replicate 32 0)

def onesKeyB64 : String := base64Encode (List.replicate 32 1)

def stKey : ContractState :=
  (storeGroupKey stRegMem ("o.testnet") ("g") onesKeyB64).2

def idCipher : BlockCipher := ⟨fun _ b => b, fun _ b => b⟩

/-! ## Theorems -/

theorem alGet_insertAL_self {β : Type} (l : List (String × β)) (k : String) (v : β) :
    alGet (insertAL l k v) k = some v := by
  induction l with
  | nil => simp [insertAL, alGet]
  | cons hd t ih =>
    obtain ⟨k', v'⟩ := hd
    by_cases h : k' = k
    · simp [insertAL, h, alGet]
    · simp [insertAL, h, alGet, ih]

theorem alGet_insertAL_ne {β : Type} (l : List (String × β)) (k k' : String) (v : β)
    (h : k' ≠ k) : alGet (insertAL l k v) k' = alGet l k' := by
  have h' : ¬k = k' := fun hk => h hk.symm
  induction l with
  | nil => simp [insertAL, alGet, h']
  | cons hd t ih =>
    obtain ⟨k0, v0⟩ := hd
    by_cases h0 : k0 = k
    · subst h0
      simp [insertAL, alGet, h']
    · simp only [insertAL, if_neg h0, alGet]
      by_cases h1 : k0 = k'
      · simp [h1]
      · simp [h1, ih]

theorem hexEncode_length (bs : List Nat) : (hexEncode bs).length = 2 * bs.length := by
  show (bs.flatMap hexByte).length = 2 * bs.length
  induction bs with
  | nil => rfl
  | cons b t ih => simp [List.flatMap_cons, hexByte, ih]; omega

theorem b64Val_b64Char (v : Nat) (h : v < 64) : b64Val (b64Char v) = some v := by
  interval_cases v <;> decide

theorem b64Char_ne_pad (v : Nat) (h : v < 64) : b64Char v ≠ '=' := by
  interval_cases v <;> decide

theorem b64_roundtrip (bs : List Nat) (h : ∀ x ∈ bs, x < 256) :
    b64DecodeChunks (b64EncodeChunks bs) = some bs := by
  induction bs using b64EncodeChunks.induct with
  | case1 a b c rest ih =>
    have ha : a < 256 := h a (by simp)
    have hb : b < 256 := h b (by simp)
    have hc : c < 256 := h c (by simp)
    have ih2 := ih (fun x hx => h x (by simp [hx]))
    have h1 := b64Val_b64Char (a / 4) (by omega)
    have h2 := b64Val_b64Char (a % 4 * 16 + b / 16) (by omega)
    have h3 := b64Val_b64Char (b % 16 * 4 + c / 64) (by omega)
    have h4 := b64Val_b64Char (c % 64) (by omega)
    have hne3 := b64Char_ne_pad (b % 16 * 4 + c / 64) (by omega)
    have hne4 := b64Char_ne_pad (c % 64) (by omega)
    simp [b64EncodeChunks, b64DecodeChunks, h1, h2, h3, h4, hne3, hne4, ih2]
    omega
  | case2 a b =>
    have ha : a < 256 := h a (by simp)
    have hb : b < 256 := h b (by simp)
    have h1 := b64Val_b64Char (a / 4) (by omega)
    have h2 := b64Val_b64Char (a % 4 * 16 + b / 16) (by omega)
    have h3 := b64Val_b64Char (b % 16 * 4) (by omega)
    have hne3 := b64Char_ne_pad (b % 16 * 4) (by omega)
    simp [b64EncodeChunks, b64DecodeChunks, h1, h2, h3, hne3,
      (by omega : (b % 16 * 4) % 4 = 0)]
    omega
  | case3 a =>
    have ha : a < 256 := h a (by simp)
    have h1 := b64Val_b64Char (a / 4) (by omega)
    have h2 := b64Val_b64Char (a % 4 * 16) (by omega)
    simp [b64EncodeChunks, b64DecodeChunks, h1, h2,
      (by omega : (a % 4 * 16) % 16 = 0)]
    omega
  | case4 =>
    rfl

theorem base64_roundtrip (bs : List Nat) (h : ∀ x ∈ bs, x < 256) :
    base64Decode (base64Encode bs) = some bs := by
  show b64DecodeChunks (String.mk (b64EncodeChunks bs)).data = some bs
  exact b64_roundtrip bs h

theorem sha256_length (msg : List Nat) : (sha256 msg).length = 32 := by
  simp [sha256, wordBytes]

theorem sha256_bytes_lt (msg : List Nat) : ∀ x ∈ sha256 msg, x < 256 := by
  intro x hx
  simp only [sha256, wordBytes, List.mem_append, List.mem_cons, List.not_mem_nil, or_false] at hx
  omega

set_option maxRecDepth 40000 in
theorem sha256_test_vector_abc :
    hexEncode (sha256 (utf8Bytes ("abc"))) =
      "ba7816bf8f01cfea414140de5dae2223b00361a396177a9cb410ff61f20015ad" := by
  decide

set_option maxRecDepth 40000 in
theorem sha256_test_vector_empty :
    hexEncode (sha256 []) =
      "e3b0c44298fc1c149afbf4c8996fb92427ae41e4649b934ca495991b7852b855" := by
  decide

theorem findIdx?_some_spec (p : String → Bool) (l : List String) :
    ∀ i, l.findIdx? p = some i → ∃ hi : i < l.length, p (l[i]) = true := by
  induction l with
  | nil => intro i h; simp [List.findIdx?] at h
  | cons a t ih =>
    intro i h
    rw [List.findIdx?_cons] at h
    by_cases hp : p a
    · simp [hp] at h
      subst h
      exact ⟨by simp, by simpa using hp⟩
    · simp [hp] at h
      obtain ⟨j, hj, rfl⟩ := h
      obtain ⟨hjl, hpj⟩ := ih j hj
      exact ⟨by simpa using hjl, by simpa using hpj⟩

theorem findIdx?_isSome_of_mem (l : List String) (u : String) (hu : u ∈ l) :
    ∃ i, l.findIdx? (fun x => x = u) = some i := by
  induction l with
  | nil => cases hu
  | cons a t ih =>
    rw [List.findIdx?_cons]
    by_cases ha : a = u
    · exact ⟨0, by simp [ha]⟩
    · have hut : u ∈ t := by
        cases hu with
        | head => exact absurd rfl ha
        | tail _ h => exact h
      obtain ⟨i, hi⟩ := ih hut
      exact ⟨i + 1, by simp [ha, hi]⟩

theorem swapRemove_length (l : List String) (i : Nat) :
    (swapRemove l i).length = l.length - 1 := by
  simp [swapRemove]

theorem getLastD_eq_getElem (l : List String) (d : String) (h : 0 < l.length) :
    l.getLastD d = l[l.length - 1] := by
  cases l with
  | nil => simp at h
  | cons a t =>
    rw [List.getLastD_eq_getLast?, List.getLast?_eq_getLast _ (by simp)]
    simp [List.getLast_eq_getElem]

theorem get_swapRemove (l : List String) (i j : Nat) (hi : i < l.length)
    (hj : j < l.length - 1) :
    (swapRemove l i).get ⟨j, by rw [swapRemove_length]; omega⟩ =
      if j = i then l[l.length - 1] else l[j] := by
  have hdl : j < ((l.set i (l.getLastD "")).dropLast).length := by simp; omega
  show ((l.set i (l.getLastD "")).dropLast).get ⟨j, hdl⟩ = _
  rw [List.get_eq_getElem]
  rw [List.getElem_dropLast]
  by_cases hij : j = i
  · subst hij
    rw [if_pos rfl]
    rw [List.getElem_set_self]
    exact getLastD_eq_getElem l "" (by omega)
  · rw [if_neg hij]
    exact List.getElem_set_ne (fun h => hij h.symm) _

theorem nodup_getElem_inj (l : List String) (hnd : l.Nodup) (a b : Nat)
    (ha : a < l.length) (hb : b < l.length) (hab : l[a] = l[b]) : a = b := by
  have : (⟨a, ha⟩ : Fin l.length) = ⟨b, hb⟩ := by
    apply (List.Nodup.get_inj_iff hnd).mp
    rw [List.get_eq_getElem, List.get_eq_getElem]
    exact hab
  have := Fin.mk.injEq .. ▸ this
  omega

theorem not_mem_swapRemove (l : List String) (u : String) (i : Nat)
    (hnd : l.Nodup) (hi : i < l.length) (hu : l[i] = u) : u ∉ swapRemove l i := by
  intro hmem
  obtain ⟨⟨j, hj⟩, hju⟩ := List.mem_iff_get.mp hmem
  have hj' : j < l.length - 1 := by rwa [swapRemove_length] at hj
  rw [get_swapRemove l i j hi hj'] at hju
  by_cases hij : j = i
  · rw [if_pos hij] at hju
    have hlast : l.length - 1 < l.length := by omega
    have := nodup_getElem_inj l hnd (l.length - 1) i hlast hi (by rw [hju, hu])
    omega
  · rw [if_neg hij] at hju
    have hjl : j < l.length := by omega
    have := nodup_getElem_inj l hnd j i hjl hi (by rw [hju, hu])
    omega

theorem swapRemove_nodup (l : List String) (i : Nat) (hnd : l.Nodup) (hi : i < l.length) :
    (swapRemove l i).Nodup := by
  rw [List.nodup_iff_injective_get]
  intro a b heq
  obtain ⟨j1, hj1⟩ := a
  obtain ⟨j2, hj2⟩ := b
  have hj1a : j1 < l.length - 1 := by rwa [swapRemove_length] at hj1
  have hj2a : j2 < l.length - 1 := by rwa [swapRemove_length] at hj2
  rw [get_swapRemove l i j1 hi hj1a, get_swapRemove l i j2 hi hj2a] at heq
  simp only [Fin.mk.injEq]
  by_cases h1 : j1 = i <;> by_cases h2 : j2 = i
  · omega
  · rw [if_pos h1, if_neg h2] at heq
    have := nodup_getElem_inj l hnd (l.length - 1) j2 (by omega) (by omega) heq
    omega
  · rw [if_neg h1, if_pos h2] at heq
    have := nodup_getElem_inj l hnd j1 (l.length - 1) (by omega) (by omega) heq
    omega
  · rw [if_neg h1, if_neg h2] at heq
    have := nodup_getElem_inj l hnd j1 j2 (by omega) (by omega) heq
    omega

theorem registerGroup_owner (st : ContractState) (c g : String) :
    (registerGroup st c g).2.owner = st.owner := by
  unfold registerGroup
  repeat' split
  all_goals rfl

theorem addGroupMember_owner (st : ContractState) (c g u : String) :
    (addGroupMember st c g u).2.owner = st.owner := by
  unfold addGroupMember
  repeat' split
  all_goals rfl

theorem addGroupMember_groups (st : ContractState) (c g u : String) :
    (addGroupMember st c g u).2.groups = st.groups := by
  unfold addGroupMember
  repeat' split
  all_goals rfl

theorem revokeGroupMember_owner (st : ContractState) (c g u : String) (seed : List Nat) :
    (revokeGroupMember st c g u seed).2.owner = st.owner := by
  unfold revokeGroupMember
  repeat' split
  all_goals rfl

theorem storeGroupKey_owner (st : ContractState) (c g k : String) :
    (storeGroupKey st c g k).2.owner = st.owner := by
  unfold storeGroupKey
  repeat' split
  all_goals rfl

theorem recordTransaction_owner (st : ContractState) (c g u fh ih : String) (ts : Nat) :
    (recordTransaction st c g u fh ih ts).2.owner = st.owner := by
  unfold recordTransaction
  repeat' split
  all_goals rfl

theorem recordTransaction_groups (st : ContractState) (c g u fh ih : String) (ts : Nat) :
    (recordTransaction st c g u fh ih ts).2.groups = st.groups := by
  unfold recordTransaction
  repeat' split
  all_goals rfl

theorem recordTransaction_groupMembers (st : ContractState) (c g u fh ih : String) (ts : Nat) :
    (recordTransaction st c g u fh ih ts).2.groupMembers = st.groupMembers := by
  unfold recordTransaction
  repeat' split
  all_goals rfl

theorem storeGroupKey_groupMembers (st : ContractState) (c g k : String) :
    (storeGroupKey st c g k).2.groupMembers = st.groupMembers := by
  unfold storeGroupKey
  repeat' split
  all_goals rfl

theorem reachable_members_nodup (st : ContractState) (h : Reachable st) :
    ∀ gid ms, alGet st.groupMembers gid = some ms → ms.Nodup := by
  induction h with
  | init owner =>
    intro gid ms hg
    simp [newContract, alGet] at hg
  | register st caller gid hst ih =>
    intro gid' ms hg
    unfold registerGroup at hg
    by_cases h1 : (alGet st.groups gid).isSome = true
    · rw [if_pos h1] at hg; exact ih _ _ hg
    · rw [if_neg h1] at hg
      by_cases h2 : caller ≠ st.owner
      · rw [if_pos h2] at hg; exact ih _ _ hg
      · rw [if_neg h2] at hg
        simp only at hg
        by_cases h3 : gid' = gid
        · subst h3
          rw [alGet_insertAL_self] at hg
          cases hg
          exact List.nodup_nil
        · rw [alGet_insertAL_ne _ _ _ _ h3] at hg
          exact ih _ _ hg
  | addMember st caller gid uid hst ih =>
    intro gid' ms hg
    unfold addGroupMember at hg
    cases hgrp : alGet st.groups gid with
    | none => rw [hgrp] at hg; exact ih _ _ hg
    | some grp =>
      rw [hgrp] at hg
      simp only at hg
      by_cases h2 : caller ≠ grp.owner
      · rw [if_pos h2] at hg; exact ih _ _ hg
      · rw [if_neg h2] at hg
        cases hms : alGet st.groupMembers gid with
        | none => rw [hms] at hg; exact ih _ _ hg
        | some ms0 =>
          rw [hms] at hg
          simp only at hg
          by_cases h3 : uid ∈ ms0
          · rw [if_pos h3] at hg; exact ih _ _ hg
          · rw [if_neg h3] at hg
            simp only at hg
            by_cases h4 : gid' = gid
            · subst h4
              rw [alGet_insertAL_self] at hg
              cases hg
              rw [← List.concat_eq_append]
              exact List.Nodup.concat h3 (ih _ _ hms)
            · rw [alGet_insertAL_ne _ _ _ _ h4] at hg
              exact ih _ _ hg
  | revoke st caller gid uid seed hst ih =>
    intro gid' ms hg
    unfold revokeGroupMember at hg
    cases hgrp : alGet st.groups gid with
    | none => rw [hgrp] at hg; exact ih _ _ hg
    | some grp =>
      rw [hgrp] at hg
      simp only at hg
      by_cases h2 : caller ≠ grp.owner
      · rw [if_pos h2] at hg; exact ih _ _ hg
      · rw [if_neg h2] at hg
        cases hms : alGet st.groupMembers gid with
        | none => rw [hms] at hg; exact ih _ _ hg
        | some ms0 =>
          rw [hms] at hg
          simp only at hg
          cases hidx : ms0.findIdx? (fun x => x = uid) with
          | none => rw [hidx] at hg; exact ih _ _ hg
          | some pos =>
            rw [hidx] at hg
            simp only at hg
            obtain ⟨hpos, _⟩ := findIdx?_some_spec _ _ _ hidx
            by_cases h4 : gid' = gid
            · subst h4
              rw [alGet_insertAL_self] at hg
              cases hg
              exact swapRemove_nodup ms0 pos (ih _ _ hms) hpos
            · rw [alGet_insertAL_ne _ _ _ _ h4] at hg
              exact ih _ _ hg
  | storeKey st caller gid key hst ih =>
    intro gid' ms hg
    rw [storeGroupKey_groupMembers] at hg
    exact ih _ _ hg
  | record st caller gid uid fh ihash ts hst ih =>
    intro gid' ms hg
    rw [recordTransaction_groupMembers] at hg
    exact ih _ _ hg

/-- C9: in every reachable contract state, the `owner` field of every
registered group equals the contract-level `owner` (the registrar):
`register_group` both requires `caller = owner` and sets the new
group's owner to the caller, and no other operation changes a group's
owner or the contract owner. -/
theorem groups_owner_eq_registrar (st : ContractState) (h : Reachable st) :
    ∀ gid grp, alGet st.groups gid = some grp → grp.owner = st.owner := by
  induction h with
  | init owner =>
    intro gid grp hg
    simp [newContract, alGet] at hg
  | register st caller gid hst ih =>
    intro gid' grp hg
    rw [registerGroup_owner]
    unfold registerGroup at hg
    by_cases h1 : (alGet st.groups gid).isSome = true
    · rw [if_pos h1] at hg; exact ih _ _ hg
    · rw [if_neg h1] at hg
      by_cases h2 : caller ≠ st.owner
      · rw [if_pos h2] at hg; exact ih _ _ hg
      · rw [if_neg h2] at hg
        simp only at hg
        push_neg at h2
        by_cases h3 : gid' = gid
        · subst h3
          rw [alGet_insertAL_self] at hg
          cases hg
          exact h2
        · rw [alGet_insertAL_ne _ _ _ _ h3] at hg
          exact ih _ _ hg
  | addMember st caller gid uid hst ih =>
    intro gid' grp hg
    rw [addGroupMember_owner]
    rw [addGroupMember_groups] at hg
    exact ih _ _ hg
  | revoke st caller gid uid seed hst ih =>
    intro gid' grp hg
    rw [revokeGroupMember_owner]
    unfold revokeGroupMember at hg
    cases hgrp : alGet st.groups gid with
    | none => rw [hgrp] at hg; exact ih _ _ hg
    | some grp0 =>
      rw [hgrp] at hg
      simp only at hg
      by_cases h2 : caller ≠ grp0.owner
      · rw [if_pos h2] at hg; exact ih _ _ hg
      · rw [if_neg h2] at hg
        cases hms : alGet st.groupMembers gid with
        | none => rw [hms] at hg; exact ih _ _ hg
        | some ms0 =>
          rw [hms] at hg
          simp only at hg
          cases hidx : ms0.findIdx? (fun x => x = uid) with
          | none => rw [hidx] at hg; exact ih _ _ hg
          | some pos =>
            rw [hidx] at hg
            simp only at hg
            by_cases h4 : gid' = gid
            · subst h4
              rw [alGet_insertAL_self] at hg
              cases hg
              exact ih gid' grp0 hgrp
            · rw [alGet_insertAL_ne _ _ _ _ h4] at hg
              exact ih _ _ hg
  | storeKey st caller gid key hst ih =>
    intro gid' grp hg
    rw [storeGroupKey_owner]
    unfold storeGroupKey at hg
    cases hgrp : alGet st.groups gid with
    | none => rw [hgrp] at hg; exact ih _ _ hg
    | some grp0 =>
      rw [hgrp] at hg
      simp only at hg
      by_cases h2 : caller ≠ grp0.owner
      · rw [if_pos h2] at hg; exact ih _ _ hg
      · rw [if_neg h2] at hg
        cases hkb : base64Decode key with
        | none => rw [hkb] at hg; exact ih _ _ hg
        | some kb =>
          rw [hkb] at hg
          simp only at hg
          by_cases h3 : kb.length ≠ 32
          · rw [if_pos h3] at hg; exact ih _ _ hg
          · rw [if_neg h3] at hg
            simp only at hg
            by_cases h4 : gid' = gid
            · subst h4
              rw [alGet_insertAL_self] at hg
              cases hg
              exact ih gid' grp0 hgrp
            · rw [alGet_insertAL_ne _ _ _ _ h4] at hg
              exact ih _ _ hg
  | record st caller gid uid fh ihash ts hst ih =>
    intro gid' grp hg
    rw [recordTransaction_owner]
    rw [recordTransaction_groups] at hg
    exact ih _ _ hg

/-- C2: `get_group_key` fails with the `Unauthorized` panic for every
caller that is not a current member of the group — the caller is
universally quantified, so in particular the group's owner is refused
when not a member; ownership is never consulted by `get_group_key`. -/
theorem getGroupKey_nonmember_unauthorized (st : ContractState) (caller gid : String)
    (ms : List String) (hms : alGet st.groupMembers gid = some ms) (hnm : caller ∉ ms) :
    getGroupKey st caller gid = .error ("Unauthorized") := by
  unfold getGroupKey isAuthorizedFn
  rw [hms]
  simp [hnm]

/-- C5: an owner call of `store_group_key` whose key argument does not
base64-decode, or decodes to a length other than 32, fails with one of
the two `InvalidKey`-class panics (`Invalid base64 key` /
`Key must be 32 bytes`) and leaves the state — in particular any
previously stored key — unchanged. -/
theorem storeGroupKey_invalid_key (st : ContractState) (caller gid key : String)
    (grp : NovaGroup) (k0 : String)
    (hgrp : alGet st.groups gid = some grp) (hcaller : caller = grp.owner)
    (hk0 : grp.group_key = some k0)
    (hbad : base64Decode key = none ∨ ∃ kb, base64Decode key = some kb ∧ kb.length ≠ 32) :
    ((storeGroupKey st caller gid key).1 = .error ("Invalid base64 key") ∨
      (storeGroupKey st caller gid key).1 = .error ("Key must be 32 bytes")) ∧
    (storeGroupKey st caller gid key).2 = st ∧
    groupKeyOf (storeGroupKey st caller gid key).2 gid = some k0 := by
  have hc : ¬caller ≠ grp.owner := fun h => h hcaller
  have hst : (storeGroupKey st caller gid key).2 = st := by
    unfold storeGroupKey
    rw [hgrp]
    rcases hbad with hnone | ⟨kb, hkb, hlen⟩
    · simp [hc, hnone]
    · simp [hc, hkb, hlen]
  have hkey : groupKeyOf (storeGroupKey st caller gid key).2 gid = some k0 := by
    rw [hst]
    unfold groupKeyOf
    rw [hgrp]
    exact hk0
  refine ⟨?_, hst, hkey⟩
  rcases hbad with hnone | ⟨kb, hkb, hlen⟩
  · left
    unfold storeGroupKey
    rw [hgrp]
    simp [hc, hnone]
  · right
    unfold storeGroupKey
    rw [hgrp]
    simp [hc, hkb, hlen]

/-- C6: `record_transaction` for a subject user that is not a current
member of the group fails (with `Group not found` or
`User not authorized`, both before the recorder check) and appends
nothing: the post-state is the unchanged input state, so
`get_transactions_for_group` returns the same transactions before and
after for every reader. -/
theorem recordTransaction_nonmember_fails (st : ContractState)
    (caller gid uid fh ihash : String) (ts : Nat)
    (h : isMemberB st gid uid = false) :
    (∃ e, (recordTransaction st caller gid uid fh ihash ts).1 = .error e) ∧
    (recordTransaction st caller gid uid fh ihash ts).2 = st ∧
    (recordTransaction st caller gid uid fh ihash ts).2.transactions = st.transactions ∧
    ∀ w, getTransactionsForGroup (recordTransaction st caller gid uid fh ihash ts).2 gid w =
      getTransactionsForGroup st gid w := by
  unfold isMemberB at h
  have hfail : (∃ e, (recordTransaction st caller gid uid fh ihash ts).1 = .error e) ∧
      (recordTransaction st caller gid uid fh ihash ts).2 = st := by
    unfold recordTransaction isAuthorizedFn
    cases hg : (alGet st.groups gid).isSome with
    | false => simp [hg]
    | true =>
      cases hms : alGet st.groupMembers gid with
      | none => simp [hg, hms]
      | some ms =>
        rw [hms] at h
        simp only [decide_eq_false_iff_not] at h
        simp [hg, hms, h]
  refine ⟨hfail.1, hfail.2, ?_, ?_⟩
  · rw [hfail.2]
  · intro w
    rw [hfail.2]

/-- C8: a successful `record_transaction` returns exactly
`hex(sha256(group_id ++ user_id ++ file_hash ++ ipfs_hash ++ decimal
block timestamp))` — deterministic given those five inputs — and that
identifier is 64 hex characters long. -/
theorem recordTransaction_id_is_hash (st : ContractState)
    (caller gid uid fh ihash : String) (ts : Nat)
    (hgrp : (alGet st.groups gid).isSome = true)
    (hmem : isMemberB st gid uid = true)
    (hcaller : caller = st.owner) :
    (recordTransaction st caller gid uid fh ihash ts).1 =
      .ok (hexEncode (sha256 (utf8Bytes (gid ++ uid ++ fh ++ ihash ++ toString ts)))) ∧
    (hexEncode (sha256 (utf8Bytes (gid ++ uid ++ fh ++ ihash ++ toString ts)))).length = 64 := by
  constructor
  · unfold isMemberB at hmem
    cases hms : alGet st.groupMembers gid with
    | none => rw [hms] at hmem; cases hmem
    | some ms =>
      rw [hms] at hmem
      simp only [decide_eq_true_eq] at hmem
      unfold recordTransaction isAuthorizedFn
      have hc : ¬caller ≠ st.owner := fun hne => hne hcaller
      simp [hgrp, hms, hmem, hc]
  · rw [hexEncode_length, sha256_length]

/-- C1 (amended): a successful owner `revoke_group_member` of a current
member `uid` removes `uid` (`is_authorized` is `false` afterwards) and
overwrites the group key with the base64 encoding of the host-supplied
32-byte random seed; the stored key value strictly differs from its
pre-revoke value whenever that fresh encoded value differs from it —
the code performs no inequality check against the old key, so equality
is possible exactly when the random seed reproduces the stored key. -/
theorem revoke_revokes_and_rotates (st : ContractState) (caller gid uid : String)
    (seed : List Nat) (grp : NovaGroup) (ms : List String)
    (hreach : Reachable st)
    (hgrp : alGet st.groups gid = some grp)
    (hcaller : caller = grp.owner)
    (hms : alGet st.groupMembers gid = some ms)
    (hmem : uid ∈ ms)
    (hseed : seed.length = 32) :
    (revokeGroupMember st caller gid uid seed).1 = .ok () ∧
    isAuthorizedFn (revokeGroupMember st caller gid uid seed).2 gid uid = .ok false ∧
    groupKeyOf (revokeGroupMember st caller gid uid seed).2 gid = some (base64Encode seed) ∧
    (groupKeyOf st gid ≠ some (base64Encode seed) →
      groupKeyOf (revokeGroupMember st caller gid uid seed).2 gid ≠ groupKeyOf st gid) := by
  have hc : ¬caller ≠ grp.owner := fun h => h hcaller
  obtain ⟨pos, hidx⟩ := findIdx?_isSome_of_mem ms uid hmem
  obtain ⟨hpos, hpval⟩ := findIdx?_some_spec _ _ _ hidx
  have hval : ms[pos] = uid := of_decide_eq_true (by simpa using hpval)
  have hnd := reachable_members_nodup st hreach gid ms hms
  have hnotmem := not_mem_swapRemove ms uid pos hnd hpos hval
  have htake : seed.take 32 = seed := List.take_of_length_le (by omega)
  have hr : revokeGroupMember st caller gid uid seed =
      (.ok (), { st with
        groupMembers := insertAL st.groupMembers gid (swapRemove ms pos),
        groups := insertAL st.groups gid { grp with group_key := some (base64Encode seed) } }) := by
    unfold revokeGroupMember
    rw [hgrp, hms]
    simp only [if_neg hc]
    rw [hidx, htake]
  have h3 : groupKeyOf (revokeGroupMember st caller gid uid seed).2 gid =
      some (base64Encode seed) := by
    rw [hr]
    unfold groupKeyOf
    simp only
    rw [alGet_insertAL_self]
  refine ⟨by rw [hr], ?_, h3, ?_⟩
  · rw [hr]
    unfold isAuthorizedFn
    simp only
    rw [alGet_insertAL_self]
    simp [hnotmem]
  · intro hne heq
    rw [h3] at heq
    exact hne heq.symm

/-- C1 counterexample: the claim additionally asserts that the key
value after a successful revoke always strictly differs from its
pre-revoke value.  In the state where the stored key is the base64
encoding of 32 zero bytes and the host random seed is those same 32
zero bytes, the revoke succeeds, the member is removed, yet the stored
key value is unchanged. -/
theorem revoke_key_can_repeat :
    (revokeGroupMember
        (storeGroupKey
          (addGroupMember
            (registerGroup (newContract ("o.testnet")) ("o.testnet") ("g")).2
            ("o.testnet") ("g") ("u.testnet")).2
          ("o.testnet") ("g") (base64Encode (List.replicate 32 0))).2
        ("o.testnet") ("g") ("u.testnet") (List.replicate 32 0)).1 = .ok () ∧
    isMemberB
        (storeGroupKey
          (addGroupMember
            (registerGroup (newContract ("o.testnet")) ("o.testnet") ("g")).2
            ("o.testnet") ("g") ("u.testnet")).2
          ("o.testnet") ("g") (base64Encode (List.replicate 32 0))).2
        ("g") ("u.testnet") = true ∧
    groupKeyOf
        (revokeGroupMember
          (storeGroupKey
            (addGroupMember
              (registerGroup (newContract ("o.testnet")) ("o.testnet") ("g")).2
              ("o.testnet") ("g") ("u.testnet")).2
            ("o.testnet") ("g") (base64Encode (List.replicate 32 0))).2
          ("o.testnet") ("g") ("u.testnet") (List.replicate 32 0)).2 ("g") =
      groupKeyOf
        (storeGroupKey
          (addGroupMember
            (registerGroup (newContract ("o.testnet")) ("o.testnet") ("g")).2
            ("o.testnet") ("g") ("u.testnet")).2
          ("o.testnet") ("g") (base64Encode (List.replicate 32 0))).2 ("g") := by
  refine ⟨?_, ?_, ?_⟩ <;> decide

/-- C4 (amended): `get_transactions_for_group` fails `Group not found`
when the group is absent; when present it fails `Unauthorized` unless
the `user` argument is a current member or the `user` argument equals
the contract owner (the caller identity is never consulted — the
method is an unauthenticated view); otherwise it returns every
recorded transaction whose `group_id` matches, in storage iteration
order. -/
theorem getTransactionsForGroup_spec (st : ContractState) (gid uid : String)
    (ms : List String) (hms : alGet st.groupMembers gid = some ms) :
    ((alGet st.groups gid).isSome = false →
      getTransactionsForGroup st gid uid = .error ("Group not found")) ∧
    ((alGet st.groups gid).isSome = true → uid ∉ ms → uid ≠ st.owner →
      getTransactionsForGroup st gid uid = .error ("Unauthorized")) ∧
    ((alGet st.groups gid).isSome = true → (uid ∈ ms ∨ uid = st.owner) →
      getTransactionsForGroup st gid uid =
        .ok ((st.transactions.map Prod.snd).filter (fun tx => tx.group_id = gid))) := by
  refine ⟨?_, ?_, ?_⟩
  · intro hg
    unfold getTransactionsForGroup
    simp [hg]
  · intro hg hnm hne
    unfold getTransactionsForGroup isAuthorizedFn
    simp [hg, hms, hnm, hne]
  · intro hg hyes
    unfold getTransactionsForGroup isAuthorizedFn
    rcases hyes with hm | ho
    · simp [hg, hms, hm]
    · simp [hg, hms, ho]

/-- C4 counterexample: the claim permits success only when the `user`
argument is a member or the *caller* is the registrar/owner.  The code
never consults a caller: with the registered group `g` having no
members, the call with `user = owner` succeeds for any caller — in
particular a caller `mallory.testnet` for which the spec condition is
false. -/
theorem getTransactionsForGroup_ignores_caller :
    getTransactionsForGroup
        (registerGroup (newContract ("o.testnet")) ("o.testnet") ("g")).2 ("g") ("o.testnet") =
      .ok [] ∧
    specListTxnAllowed
        (registerGroup (newContract ("o.testnet")) ("o.testnet") ("g")).2
        ("mallory.testnet") ("o.testnet") ("g") = false := by
  refine ⟨?_, ?_⟩ <;> decide

theorem xorBytes_length (a b : List Nat) : (xorBytes a b).length = min a.length b.length := by
  simp [xorBytes]

theorem xorBytes_cancel (a : List Nat) : ∀ b : List Nat, a.length = b.length →
    xorBytes (xorBytes a b) b = a := by
  induction a with
  | nil => intro b h; cases b <;> simp [xorBytes]
  | cons x t ih =>
    intro b h
    cases b with
    | nil => simp at h
    | cons y u =>
      simp only [xorBytes, List.zipWith_cons_cons, List.cons.injEq]
      refine ⟨Nat.xor_cancel_right y x, ?_⟩
      have := ih u (by simpa using h)
      simpa [xorBytes] using this

theorem xorBytes_bytes (a : List Nat) : ∀ b : List Nat, (∀ x ∈ a, x < 256) →
    (∀ x ∈ b, x < 256) → ∀ x ∈ xorBytes a b, x < 256 := by
  induction a with
  | nil => intro b _ _ x hx; simp [xorBytes] at hx
  | cons y t ih =>
    intro b ha hb x hx
    cases b with
    | nil => simp [xorBytes] at hx
    | cons z u =>
      simp only [xorBytes, List.zipWith_cons_cons, List.mem_cons] at hx
      rcases hx with hx | hx
      · subst hx
        have h1 : y < 2 ^ 8 := by simpa using ha y (by simp)
        have h2 : z < 2 ^ 8 := by simpa using hb z (by simp)
        simpa using Nat.xor_lt_two_pow h1 h2
      · exact ih u (fun w hw => ha w (by simp [hw])) (fun w hw => hb w (by simp [hw])) x
          (by simpa [xorBytes] using hx)

theorem pkcs7pad_length (bs : List Nat) :
    (pkcs7pad bs).length = bs.length + (16 - bs.length % 16) := by
  simp [pkcs7pad]

theorem pkcs7pad_length_mod (bs : List Nat) : (pkcs7pad bs).length % 16 = 0 := by
  rw [pkcs7pad_length]
  omega

theorem pkcs7pad_bytes_lt (bs : List Nat) (h : ∀ x ∈ bs, x < 256) :
    ∀ x ∈ pkcs7pad bs, x < 256 := by
  intro x hx
  rcases List.mem_append.mp hx with hm | hm
  · exact h x hm
  · have := List.eq_of_mem_replicate hm
    omega

theorem pkcs7unpad_pad (bs : List Nat) : pkcs7unpad (pkcs7pad bs) = some bs := by
  have hp1 : 1 ≤ 16 - bs.length % 16 := by omega
  have hp2 : 16 - bs.length % 16 ≤ 16 := by omega
  have hlast : (pkcs7pad bs).getLast? = some (16 - bs.length % 16) := by
    unfold pkcs7pad
    rw [List.getLast?_append]
    rw [List.getLast?_eq_getLast _ (by simp; omega)]
    simp [List.getLast_replicate]
  have hsub : (pkcs7pad bs).length - (16 - bs.length % 16) = bs.length := by
    rw [pkcs7pad_length]
    omega
  unfold pkcs7unpad
  rw [hlast]
  rw [Option.some_bind]
  rw [if_neg (by rw [pkcs7pad_length]; omega)]
  rw [hsub]
  rw [if_pos (by unfold pkcs7pad; simp)]
  congr 1
  unfold pkcs7pad
  simp

theorem take_append_exact (a t : List Nat) (h : a.length = 16) : (a ++ t).take 16 = a := by
  rw [← h]
  simp

theorem drop_append_exact (a t : List Nat) (h : a.length = 16) : (a ++ t).drop 16 = t := by
  rw [← h]
  simp

theorem cbcGo_roundtrip (E D : List Nat → List Nat)
    (hED : ∀ b : List Nat, b.length = 16 → (∀ x ∈ b, x < 256) →
      (E b).length = 16 ∧ (∀ x ∈ E b, x < 256) ∧ D (E b) = b) :
    ∀ fuel prev bs, bs.length ≤ fuel → bs.length % 16 = 0 → prev.length = 16 →
      (∀ x ∈ bs, x < 256) → (∀ x ∈ prev, x < 256) →
      (cbcEncryptGo E fuel prev bs).length = bs.length ∧
      (∀ x ∈ cbcEncryptGo E fuel prev bs, x < 256) ∧
      ∀ fuel2, bs.length ≤ fuel2 →
        cbcDecryptGo D fuel2 prev (cbcEncryptGo E fuel prev bs) = bs := by
  intro fuel
  induction fuel with
  | zero =>
    intro prev bs hle hmod hprev hbsb hprevb
    have : bs = [] := List.eq_nil_of_length_eq_zero (by omega)
    subst this
    refine ⟨rfl, by simp [cbcEncryptGo], ?_⟩
    intro fuel2 _
    cases fuel2 <;> simp [cbcEncryptGo, cbcDecryptGo]
  | succ f ihf =>
    intro prev bs hle hmod hprev hbsb hprevb
    cases hbs : bs with
    | nil =>
      refine ⟨rfl, by simp [cbcEncryptGo], ?_⟩
      intro fuel2 _
      cases fuel2 <;> simp [cbcEncryptGo, cbcDecryptGo]
    | cons b0 bt =>
      rw [← hbs]
      have hlen16 : 16 ≤ bs.length := by
        have : bs.length ≠ 0 := by rw [hbs]; simp
        omega
      have hblk : (bs.take 16).length = 16 := by simp; omega
      have hxor : (xorBytes (bs.take 16) prev).length = 16 := by
        rw [xorBytes_length, hblk, hprev]
        simp
      have hxorb : ∀ x ∈ xorBytes (bs.take 16) prev, x < 256 :=
        xorBytes_bytes _ _ (fun w hw => hbsb w (List.mem_of_mem_take hw)) hprevb
      obtain ⟨hElen, hEbytes, hDE⟩ := hED _ hxor hxorb
      have hrest_le : (bs.drop 16).length ≤ f := by simp; omega
      have hrest_mod : (bs.drop 16).length % 16 = 0 := by simp; omega
      obtain ⟨ihlen, ihbytes, ihdec⟩ :=
        ihf (E (xorBytes (bs.take 16) prev)) (bs.drop 16) hrest_le hrest_mod hElen
          (fun w hw => hbsb w (List.mem_of_mem_drop hw)) hEbytes
      have hunfold : cbcEncryptGo E (f + 1) prev bs =
          E (xorBytes (bs.take 16) prev) ++
            cbcEncryptGo E f (E (xorBytes (bs.take 16) prev)) (bs.drop 16) := by
        rw [hbs]
        rfl
      refine ⟨?_, ?_, ?_⟩
      · rw [hunfold]
        simp [hElen, ihlen]
        omega
      · intro x hx
        rw [hunfold] at hx
        rcases List.mem_append.mp hx with hm | hm
        · exact hEbytes x hm
        · exact ihbytes x hm
      · intro fuel2 hle2
        have : 16 ≤ fuel2 := by omega
        cases hf2 : fuel2 with
        | zero => omega
        | succ f2 =>
          rw [hunfold]
          have henc_ne : (E (xorBytes (bs.take 16) prev) ++
              cbcEncryptGo E f (E (xorBytes (bs.take 16) prev)) (bs.drop 16)) ≠ [] := by
            intro hcontra
            have := congrArg List.length hcontra
            simp [hElen] at this
          have htake : (E (xorBytes (bs.take 16) prev) ++
              cbcEncryptGo E f (E (xorBytes (bs.take 16) prev)) (bs.drop 16)).take 16 =
              E (xorBytes (bs.take 16) prev) :=
            take_append_exact _ _ hElen
          have hdrop : (E (xorBytes (bs.take 16) prev) ++
              cbcEncryptGo E f (E (xorBytes (bs.take 16) prev)) (bs.drop 16)).drop 16 =
              cbcEncryptGo E f (E (xorBytes (bs.take 16) prev)) (bs.drop 16) :=
            drop_append_exact _ _ hElen
          have hstep : cbcDecryptGo D (f2 + 1) prev
              (E (xorBytes (bs.take 16) prev) ++
                cbcEncryptGo E f (E (xorBytes (bs.take 16) prev)) (bs.drop 16)) =
              xorBytes (D ((E (xorBytes (bs.take 16) prev) ++
                cbcEncryptGo E f (E (xorBytes (bs.take 16) prev)) (bs.drop 16)).take 16)) prev ++
              cbcDecryptGo D f2
                ((E (xorBytes (bs.take 16) prev) ++
                  cbcEncryptGo E f (E (xorBytes (bs.take 16) prev)) (bs.drop 16)).take 16)
                ((E (xorBytes (bs.take 16) prev) ++
                  cbcEncryptGo E f (E (xorBytes (bs.take 16) prev)) (bs.drop 16)).drop 16) := by
            cases hcs : (E (xorBytes (bs.take 16) prev) ++
                cbcEncryptGo E f (E (xorBytes (bs.take 16) prev)) (bs.drop 16)) with
            | nil => exact absurd hcs henc_ne
            | cons c ct => rw [← hcs]; rw [hcs]; rfl
          rw [hstep, htake, hdrop, hDE]
          rw [xorBytes_cancel _ _ (by rw [hblk, hprev])]
          rw [ihdec f2 (by simp; omega)]
          exact List.take_append_drop 16 bs

/-- C3: for any plaintext byte sequence (empty and arbitrary binary
included), any key whose base64 decoding is exactly 32 bytes, and any
16-byte IV, `decrypt_data (encrypt_data b k) k` succeeds and returns
exactly `b` (as its base64 encoding, which decodes back to `b`).  The
AES-256 block transform of the external `aes` crate enters through the
`hED` hypothesis: on 16-byte blocks of bytes it is length-preserving,
byte-valued, and inverted by its decryption direction. -/
theorem encrypt_then_decrypt_roundtrip (C : BlockCipher) (data : List Nat) (keyB64 : String)
    (iv kb : List Nat)
    (hkey : base64Decode keyB64 = some kb) (hklen : kb.length = 32)
    (hdata : ∀ x ∈ data, x < 256)
    (hiv : iv.length = 16) (hivb : ∀ x ∈ iv, x < 256)
    (hED : ∀ b : List Nat, b.length = 16 → (∀ x ∈ b, x < 256) →
      (C.enc kb b).length = 16 ∧ (∀ x ∈ C.enc kb b, x < 256) ∧ C.dec kb (C.enc kb b) = b) :
    ∃ ct, encryptData C data keyB64 iv = .ok ct ∧
      decryptData C ct keyB64 = .ok (base64Encode data) ∧
      base64Decode (base64Encode data) = some data := by
  obtain ⟨hclen, hcbytes, hcdec⟩ :=
    cbcGo_roundtrip (C.enc kb) (C.dec kb) hED (pkcs7pad data).length iv (pkcs7pad data)
      le_rfl (pkcs7pad_length_mod data) hiv (pkcs7pad_bytes_lt data hdata) hivb
  have hpaybytes : ∀ x ∈ iv ++ cbcEncrypt (C.enc kb) iv (pkcs7pad data), x < 256 := by
    intro x hx
    rcases List.mem_append.mp hx with hm | hm
    · exact hivb x hm
    · exact hcbytes x hm
  have hpayload : base64Decode (base64Encode (iv ++ cbcEncrypt (C.enc kb) iv (pkcs7pad data))) =
      some (iv ++ cbcEncrypt (C.enc kb) iv (pkcs7pad data)) :=
    base64_roundtrip _ hpaybytes
  have henc : encryptData C data keyB64 iv =
      .ok (base64Encode (iv ++ cbcEncrypt (C.enc kb) iv (pkcs7pad data))) := by
    unfold encryptData
    rw [hkey]
    simp [hklen]
  refine ⟨_, henc, ?_, base64_roundtrip data hdata⟩
  unfold decryptData
  rw [hkey]
  simp only [hklen, ne_eq, not_true_eq_false, if_neg, ite_false]
  rw [hpayload]
  simp only []
  have hlenpay : (iv ++ cbcEncrypt (C.enc kb) iv (pkcs7pad data)).length =
      16 + (pkcs7pad data).length := by
    simp [hiv]
    rw [show cbcEncrypt (C.enc kb) iv (pkcs7pad data) =
      cbcEncryptGo (C.enc kb) (pkcs7pad data).length iv (pkcs7pad data) from rfl] at *
    omega
  have hnotlt : ¬(iv ++ cbcEncrypt (C.enc kb) iv (pkcs7pad data)).length < 16 := by
    rw [hlenpay]; omega
  rw [if_neg hnotlt]
  rw [take_append_exact _ _ hiv, drop_append_exact _ _ hiv]
  have hctmod : ¬(cbcEncrypt (C.enc kb) iv (pkcs7pad data)).length % 16 ≠ 0 := by
    rw [show cbcEncrypt (C.enc kb) iv (pkcs7pad data) =
      cbcEncryptGo (C.enc kb) (pkcs7pad data).length iv (pkcs7pad data) from rfl]
    rw [hclen]
    simp [pkcs7pad_length_mod]
  rw [if_neg hctmod]
  have hdec : cbcDecrypt (C.dec kb) iv (cbcEncrypt (C.enc kb) iv (pkcs7pad data)) =
      pkcs7pad data := by
    unfold cbcDecrypt cbcEncrypt
    rw [hclen]
    exact hcdec _ le_rfl
  rw [hdec, pkcs7unpad_pad]

/-- C10: for a valid 32-byte key, `decrypt_data` on a payload that
decodes to exactly 16 bytes (an IV with empty ciphertext remainder)
neither succeeds with an empty plaintext nor fails `InvalidKey`: the
`< 16` guard passes, the remaining ciphertext is empty, and PKCS7
unpadding of the empty plaintext fails, producing the
`Decryption failed` error. -/
theorem decrypt_iv_only_fails_with_padding_error (C : BlockCipher)
    (encryptedB64 keyB64 : String) (kb eb : List Nat)
    (hkey : base64Decode keyB64 = some kb) (hklen : kb.length = 32)
    (heb : base64Decode encryptedB64 = some eb) (hlen : eb.length = 16) :
    decryptData C encryptedB64 keyB64 = .error (.near ("Decryption failed")) ∧
    decryptData C encryptedB64 keyB64 ≠ .error .invalidKey ∧
    ∀ pt, decryptData C encryptedB64 keyB64 ≠ .ok pt := by
  have hdropnil : eb.drop 16 = [] := List.drop_eq_nil_of_le (by omega)
  have hmain : decryptData C encryptedB64 keyB64 = .error (.near ("Decryption failed")) := by
    unfold decryptData
    rw [hkey]
    simp only [hklen, ne_eq, not_true_eq_false, if_neg, ite_false]
    rw [heb]
    simp only []
    rw [if_neg (by omega)]
    rw [hdropnil]
    rfl
  refine ⟨hmain, ?_, ?_⟩
  · rw [hmain]
    intro h
    cases h
  · intro pt h
    rw [hmain] at h
    cases h

theorem retrieveGo_zero (p : Nat → Except NovaError String) (f : Except NovaError String)
    (r : Nat) : retrieveGo p f r 0 = (f, []) := rfl

theorem retrieveGo_ok (p : Nat → Except NovaError String) (f : Except NovaError String)
    (r m : Nat) (res : String) (h : p r = .ok res) :
    retrieveGo p f r (m + 1) = (.ok res, []) := by
  conv_lhs => unfold retrieveGo
  rw [h]

theorem retrieveGo_timeout (p : Nat → Except NovaError String) (f : Except NovaError String)
    (r m : Nat) (e : NovaError) (h : p r = .error e) (ht : isTimeoutErr e = true) :
    retrieveGo p f r (m + 1) =
      ((retrieveGo p f (r + 1) m).1, 2 ^ (r + 1) :: (retrieveGo p f (r + 1) m).2) := by
  conv_lhs => unfold retrieveGo
  rw [h]
  simp [ht]

theorem retrieveGo_abort (p : Nat → Except NovaError String) (f : Except NovaError String)
    (r m : Nat) (e : NovaError) (h : p r = .error e) (ht : isTimeoutErr e = false) :
    retrieveGo p f r (m + 1) = (.error e, []) := by
  conv_lhs => unfold retrieveGo
  rw [h]
  simp [ht]

/-- C7: the content-store get retries only timeout-classified errors,
makes at most 3 primary attempts with sleeps of exactly 2, 4, 8
seconds after the first, second and third failed attempts, aborts
immediately (no retry, no fallback — the result does not depend on
`fallback`) on any non-timeout error, and consults the secondary
public gateway exactly once, only after all 3 primary attempts are
timeouts, with that single attempt's result — in particular its
failure — deciding the overall operation. -/
theorem ipfsRetrieve_retry_policy (primary : Nat → Except NovaError String)
    (fallback : Except NovaError String) :
    (∀ k, k < 3 →
      (∀ i, i < k → ∃ e, primary i = .error e ∧ isTimeoutErr e = true) →
      ((∀ r, primary k = .ok r →
          ipfsRetrieve primary fallback = (.ok r, (List.range k).map (fun i => 2 ^ (i + 1)))) ∧
        (∀ e, primary k = .error e → isTimeoutErr e = false →
          ipfsRetrieve primary fallback =
            (.error e, (List.range k).map (fun i => 2 ^ (i + 1)))))) ∧
    ((∀ i, i < 3 → ∃ e, primary i = .error e ∧ isTimeoutErr e = true) →
      ipfsRetrieve primary fallback = (fallback, [2, 4, 8])) := by
  constructor
  · intro k hk hprev
    interval_cases k
    · constructor
      · intro r h0
        unfold ipfsRetrieve
        rw [retrieveGo_ok primary fallback 0 2 _ h0]
        simp
      · intro e h0 hnt
        unfold ipfsRetrieve
        rw [retrieveGo_abort primary fallback 0 2 _ h0 hnt]
        simp
    · obtain ⟨e0, he0, ht0⟩ := hprev 0 (by omega)
      constructor
      · intro r h1
        unfold ipfsRetrieve
        rw [retrieveGo_timeout primary fallback 0 2 _ he0 ht0]
        rw [retrieveGo_ok primary fallback 1 1 _ h1]
        simp [List.range_succ]
      · intro e h1 hnt
        unfold ipfsRetrieve
        rw [retrieveGo_timeout primary fallback 0 2 _ he0 ht0]
        rw [retrieveGo_abort primary fallback 1 1 _ h1 hnt]
        simp [List.range_succ]
    · obtain ⟨e0, he0, ht0⟩ := hprev 0 (by omega)
      obtain ⟨e1, he1, ht1⟩ := hprev 1 (by omega)
      constructor
      · intro r h2
        unfold ipfsRetrieve
        rw [retrieveGo_timeout primary fallback 0 2 _ he0 ht0]
        rw [retrieveGo_timeout primary fallback 1 1 _ he1 ht1]
        rw [retrieveGo_ok primary fallback 2 0 _ h2]
        simp [List.range_succ]
      · intro e h2 hnt
        unfold ipfsRetrieve
        rw [retrieveGo_timeout primary fallback 0 2 _ he0 ht0]
        rw [retrieveGo_timeout primary fallback 1 1 _ he1 ht1]
        rw [retrieveGo_abort primary fallback 2 0 _ h2 hnt]
        simp [List.range_succ]
  · intro hall
    obtain ⟨e0, he0, ht0⟩ := hall 0 (by omega)
    obtain ⟨e1, he1, ht1⟩ := hall 1 (by omega)
    obtain ⟨e2, he2, ht2⟩ := hall 2 (by omega)
    unfold ipfsRetrieve
    rw [retrieveGo_timeout primary fallback 0 2 _ he0 ht0]
    rw [retrieveGo_timeout primary fallback 1 1 _ he1 ht1]
    rw [retrieveGo_timeout primary fallback 2 0 _ he2 ht2]
    rw [retrieveGo_zero]
    simp

theorem stKey_reachable : Reachable stKey :=
  Reachable.storeKey stRegMem ("o.testnet") ("g") onesKeyB64
    (Reachable.addMember stReg ("o.testnet") ("g") ("u.testnet")
      (Reachable.register (newContract ("o.testnet")) ("o.testnet") ("g")
        (Reachable.init ("o.testnet"))))

theorem revoke_revokes_and_rotates_witness :
    (revokeGroupMember stKey ("o.testnet") ("g") ("u.testnet") (List.replicate 32 0)).1 =
      .ok () ∧
    isAuthorizedFn (revokeGroupMember stKey ("o.testnet") ("g") ("u.testnet")
      (List.replicate 32 0)).2 ("g") ("u.testnet") = .ok false ∧
    groupKeyOf (revokeGroupMember stKey ("o.testnet") ("g") ("u.testnet")
      (List.replicate 32 0)).2 ("g") = some (base64Encode (List.replicate 32 0)) ∧
    groupKeyOf (revokeGroupMember stKey ("o.testnet") ("g") ("u.testnet")
      (List.replicate 32 0)).2 ("g") ≠ groupKeyOf stKey ("g") := by
  obtain ⟨h1, h2, h3, h4⟩ :=
    revoke_revokes_and_rotates stKey ("o.testnet") ("g") ("u.testnet")
      (List.replicate 32 0) ⟨"o.testnet", some onesKeyB64⟩ ["u.testnet"]
      stKey_reachable (by decide) rfl (by decide) (by decide) (by decide)
  exact ⟨h1, h2, h3, h4 (by decide)⟩

theorem getGroupKey_nonmember_unauthorized_witness :
    getGroupKey stReg ("o.testnet") ("g") = .error ("Unauthorized") :=
  getGroupKey_nonmember_unauthorized stReg ("o.testnet") ("g") [] (by decide) (by decide)

theorem encrypt_then_decrypt_roundtrip_witness :
    (encryptData idCipher [255, 216, 255] zeroKeyB64 (List.replicate 16 0)).isOk = true ∧
    decryptData idCipher
        ((encryptData idCipher [255, 216, 255] zeroKeyB64 (List.replicate 16 0)).toOption.getD
          ("")) zeroKeyB64 = .ok (base64Encode [255, 216, 255]) ∧
    base64Decode (base64Encode [255, 216, 255]) = some [255, 216, 255] := by
  obtain ⟨ct, h1, h2, h3⟩ :=
    encrypt_then_decrypt_roundtrip idCipher [255, 216, 255] zeroKeyB64
      (List.replicate 16 0) (List.replicate 32 0) (by decide) (by decide) (by decide)
      (by decide) (by decide) (fun b hb hbytes => ⟨hb, hbytes, rfl⟩)
  rw [h1]
  exact ⟨rfl, h2, h3⟩

theorem getTransactionsForGroup_spec_witness :
    getTransactionsForGroup stReg ("g") ("o.testnet") =
      .ok ((stReg.transactions.map Prod.snd).filter (fun tx => tx.group_id = "g")) :=
  (getTransactionsForGroup_spec stReg ("g") ("o.testnet") [] (by decide)).2.2
    (by decide) (Or.inr (by decide))

theorem storeGroupKey_invalid_key_witness :
    ((storeGroupKey stKey ("o.testnet") ("g") ("AAAA")).1 = .error ("Invalid base64 key") ∨
      (storeGroupKey stKey ("o.testnet") ("g") ("AAAA")).1 = .error ("Key must be 32 bytes")) ∧
    (storeGroupKey stKey ("o.testnet") ("g") ("AAAA")).2 = stKey ∧
    groupKeyOf (storeGroupKey stKey ("o.testnet") ("g") ("AAAA")).2 ("g") = some onesKeyB64 :=
  storeGroupKey_invalid_key stKey ("o.testnet") ("g") ("AAAA")
    ⟨"o.testnet", some onesKeyB64⟩ onesKeyB64 (by decide) rfl (by decide)
    (Or.inr ⟨[0, 0, 0], by decide, by decide⟩)

theorem recordTransaction_nonmember_fails_witness :
    (recordTransaction stReg ("o.testnet") ("g") ("x.testnet") ("fh") ("ih") 5).2 = stReg ∧
    (recordTransaction stReg ("o.testnet") ("g") ("x.testnet") ("fh") ("ih") 5).2.transactions =
      stReg.transactions ∧
    getTransactionsForGroup
        (recordTransaction stReg ("o.testnet") ("g") ("x.testnet") ("fh") ("ih") 5).2 ("g")
        ("o.testnet") =
      getTransactionsForGroup stReg ("g") ("o.testnet") := by
  obtain ⟨_, h2, h3, h4⟩ :=
    recordTransaction_nonmember_fails stReg ("o.testnet") ("g") ("x.testnet") ("fh") ("ih") 5
      (by decide)
  exact ⟨h2, h3, h4 ("o.testnet")⟩

theorem ipfsRetrieve_retry_policy_witness :
    ipfsRetrieve (fun _ => .error (.near ("request timeout"))) (.ok ("data")) =
      (.ok ("data"), [2, 4, 8]) :=
  (ipfsRetrieve_retry_policy (fun _ => .error (.near ("request timeout"))) (.ok ("data"))).2
    (fun i _ => ⟨.near ("request timeout"), rfl, by decide⟩)

theorem recordTransaction_id_is_hash_witness :
    (recordTransaction stRegMem ("o.testnet") ("g") ("u.testnet") ("fh") ("ihash") 7).1 =
      .ok (hexEncode (sha256 (utf8Bytes ("g" ++ "u.testnet" ++ "fh" ++ "ihash" ++ toString 7)))) ∧
    (hexEncode (sha256 (utf8Bytes ("g" ++ "u.testnet" ++ "fh" ++ "ihash" ++ toString 7)))).length =
      64 :=
  recordTransaction_id_is_hash stRegMem ("o.testnet") ("g") ("u.testnet") ("fh") ("ihash") 7
    (by decide) (by decide) rfl

theorem groups_owner_eq_registrar_witness :
    (NovaGroup.mk ("o.testnet") none).owner = stReg.owner :=
  groups_owner_eq_registrar stReg
    (Reachable.register (newContract ("o.testnet")) ("o.testnet") ("g")
      (Reachable.init ("o.testnet")))
    ("g") ⟨"o.testnet", none⟩ (by decide)

theorem decrypt_iv_only_fails_with_padding_error_witness :
    decryptData idCipher (base64Encode (List.replicate 16 0)) zeroKeyB64 =
      .error (.near ("Decryption failed")) ∧
    decryptData idCipher (base64Encode (List.replicate 16 0)) zeroKeyB64 ≠
      .error .invalidKey ∧
    decryptData idCipher (base64Encode (List.replicate 16 0)) zeroKeyB64 ≠ .ok ("") := by
  obtain ⟨h1, h2, h3⟩ :=
    decrypt_iv_only_fails_with_padding_error idCipher (base64Encode (List.replicate 16 0))
      zeroKeyB64 (List.replicate 32 0) (List.replicate 16 0) (by decide) (by decide)
      (by decide) (by decide)
  exact ⟨h1, h2, h3 ("")⟩
